import Mathlib

/-!
Verification development for the VisionCharts numerical core.

The JavaScript source is shallowly embedded in Lean:
* machine `number` arithmetic is modelled exactly, by `ℚ` where the code only
  performs field operations and by `ℝ` where it uses logarithms and powers
  (the `LogScale`);
* a JS value that may be `undefined`, missing, or otherwise not a finite
  number is modelled as `Option ℚ` (`none` = absent / non-numeric), and the
  contaminating arithmetic of such values is modelled by the lifted
  operations `oadd`, `osub`, `omul`, `odiv`;
* a function that can `throw` is embedded with result type `Except String _`;
  a method whose body contains no `throw` statement is embedded as always
  returning `Except.ok`;
* imperative loops are embedded as folds / recursions threading the mutated
  state explicitly.
-/

namespace VisionCharts

/-! ## Scales (src/src/core/Scale.js) -/

/-- Embeds `LinearScale` from `src/src/core/Scale.js`: a domain pair and a
range pair of numbers. -/
structure LinearScale where
  domain : ℚ × ℚ
  range : ℚ × ℚ
deriving DecidableEq

/-- Embeds `LinearScale.scale`: if `d0 === d1` return `r0`, otherwise
linearly interpolate `r0 + (value - d0) * (r1 - r0) / (d1 - d0)`. -/
def LinearScale.scale (s : LinearScale) (value : ℚ) : ℚ :=
  let d0 := s.domain.1
  let d1 := s.domain.2
  let r0 := s.range.1
  let r1 := s.range.2
  if d0 = d1 then r0
  else r0 + (value - d0) * (r1 - r0) / (d1 - d0)

/-- Embeds `LinearScale.invert`: if `r0 === r1` return `d0`, otherwise
`d0 + (value - r0) * (d1 - d0) / (r1 - r0)`. -/
def LinearScale.invert (s : LinearScale) (value : ℚ) : ℚ :=
  let d0 := s.domain.1
  let d1 := s.domain.2
  let r0 := s.range.1
  let r1 := s.range.2
  if r0 = r1 then d0
  else d0 + (value - r0) * (d1 - d0) / (r1 - r0)

/-- Embeds `LogScale` from `src/src/core/Scale.js`: domain, range and a
logarithm base (JS default 10).  The transcendental `Math.log` / `Math.pow`
force the model into `ℝ`. -/
structure LogScale where
  domain : ℝ × ℝ
  range : ℝ × ℝ
  base : ℝ

/-- Embeds `LogScale.scale`.  The body first throws
`Log scale domain must be positive` when `value <= 0`, then returns `r0` on a
degenerate domain, else interpolates in log space.  `this.log v` is
`Math.log(v)/Math.log(base)`, i.e. `Real.logb base v`. -/
noncomputable def LogScale.scale (s : LogScale) (value : ℝ) : Except String ℝ :=
  let d0 := s.domain.1
  let d1 := s.domain.2
  let r0 := s.range.1
  let r1 := s.range.2
  if value ≤ 0 then .error "Log scale domain must be positive"
  else if d0 = d1 then .ok r0
  else .ok (r0 + (Real.logb s.base value - Real.logb s.base d0) * (r1 - r0) /
      (Real.logb s.base d1 - Real.logb s.base d0))

/-- Embeds `LogScale.invert`.  The body contains no `throw`: if `r0 === r1`
it returns `d0`, else exponentiates back with `this.pow`, i.e.
`base ^ (log d0 + (value - r0) * (log d1 - log d0) / (r1 - r0))`. -/
noncomputable def LogScale.invert (s : LogScale) (value : ℝ) : Except String ℝ :=
  let d0 := s.domain.1
  let d1 := s.domain.2
  let r0 := s.range.1
  let r1 := s.range.2
  if r0 = r1 then .ok d0
  else .ok (s.base ^ (Real.logb s.base d0 + (value - r0) *
      (Real.logb s.base d1 - Real.logb s.base d0) / (r1 - r0)))

/-- Embeds `Scale.setDomain` (inherited by `LogScale`): the body is just
`this.domain = domain; return this;` and contains no validation and no
`throw`. -/
def LogScale.setDomain (s : LogScale) (domain : ℝ × ℝ) : Except String LogScale :=
  .ok ⟨domain, s.range, s.base⟩

/-- Embeds `createNiceDomain` from `src/src/core/Scale.js`.
`Math.floor(Math.log10 x)` for a positive rational `x` is exactly
`Int.log 10 x`, and `Math.pow(10, k)` is the integer power `(10 : ℚ) ^ k`. -/
def createNiceDomain (min max : ℚ) (count : ℚ) : ℚ × ℚ :=
  if min = max then (min - 1, max + 1)
  else
    let range := max - min
    let step0 : ℚ := (10 : ℚ) ^ Int.log 10 (range / count)
    let ratio := range / (count * step0)
    let step := if 5 ≤ ratio then step0 * 5 else if 2 ≤ ratio then step0 * 2 else step0
    ((⌊min / step⌋ : ℤ) * step, (⌈max / step⌉ : ℤ) * step)

/-! ## Monotone cubic curve generation (src/unnamed/part_003, `generateMonotonePath`) -/

/-- A drawable path command: the structured content of the SVG path string the
code assembles (`M x,y`, `L x,y`, `C c1x,c1y c2x,c2y x,y`). -/
inductive PathCmd where
  | moveTo (p : ℚ × ℚ)
  | lineTo (p : ℚ × ℚ)
  | curveTo (c1 c2 p : ℚ × ℚ)
deriving DecidableEq

/-- Embeds `SvgRenderer.linePathDefinition`: empty input gives an empty path,
otherwise `M` to the first point followed by an `L` per remaining point. -/
def linePathDefinition : List (ℚ × ℚ) → List PathCmd
  | [] => []
  | p :: rest => .moveTo p :: rest.map .lineTo

/-- The per-segment slopes `tangents[i] = (y[i+1]-y[i])/(x[i+1]-x[i])` for
`i < n-1`, i.e. the initialization loop of `generateMonotonePath`. -/
def slopes (points : List (ℚ × ℚ)) : List ℚ :=
  List.zipWith (fun p q => (q.2 - p.2) / (q.1 - p.1)) points points.tail

/-- Embeds the in-place adjustment loop of `generateMonotonePath`
(`for i = 1 .. n-2`): `prev` is `tangents[i-1]`, which the loop has already
overwritten, and the list holds the raw slopes `tangents[i], ..., tangents[n-2]`
not yet visited.  Each step replaces the slope by `0` when
`tangents[i-1]*tangents[i] <= 0` and by `(a*b)/(a+b)` otherwise, and threads
the new value as `prev` for the next iteration. -/
def adjustTangents : ℚ → List ℚ → List ℚ
  | _, [] => []
  | prev, b :: rest =>
    let t := if prev * b ≤ 0 then 0 else prev * b / (prev + b)
    t :: adjustTangents t rest

/-- The full tangent array of `generateMonotonePath` for `n ≥ 2` points:
`tangents[0]` keeps the raw first slope (the loop starts at `i = 1`),
`tangents[n-1]` was set to the raw last slope `tangents[n-2]` before the loop
and is never revisited, and the interior entries are produced by the
sequential adjustment loop. -/
def monotoneTangents (points : List (ℚ × ℚ)) : List ℚ :=
  match slopes points with
  | [] => []
  | m0 :: mrest => m0 :: (adjustTangents m0 mrest ++ [(m0 :: mrest).getLast (by simp)])

/-- Embeds the curve-segment loop of `generateMonotonePath`: for each
consecutive point pair with its pair of tangents, `dx` is a third of the
horizontal span and the control points sit at `1/3` and `2/3` of it along the
tangent directions. -/
def curveSegments : List (ℚ × ℚ) → List ℚ → List PathCmd
  | p :: q :: ps, tp :: tq :: ts =>
    let dx := (q.1 - p.1) / 3
    .curveTo (p.1 + dx, p.2 + dx * tp) (q.1 - dx, q.2 - dx * tq) q
      :: curveSegments (q :: ps) (tq :: ts)
  | _, _ => []

/-- Embeds `generateMonotonePath` (src/unnamed/part_003 lines 1137-1187):
fewer than 3 points fall back to `SvgRenderer.linePathDefinition`, otherwise a
move to the first point followed by one cubic Bézier command per segment. -/
def generateMonotonePath (points : List (ℚ × ℚ)) : List PathCmd :=
  if points.length < 3 then linePathDefinition points
  else
    match points with
    | [] => []
    | p0 :: _ => .moveTo p0 :: curveSegments points (monotoneTangents points)

/-- Spec-side definition, following the claim words only: the harmonic mean
of two slopes, `2*a*b/(a+b)`. -/
def harmonicMean (a b : ℚ) : ℚ := 2 * a * b / (a + b)

/-- Spec-side definition, following the claim words only: the interior
tangent the claim prescribes from the two *raw* adjacent segment slopes —
zero when they have opposite sign or either is exactly zero, else their
harmonic mean. -/
def claimInteriorTangent (a b : ℚ) : ℚ :=
  if a * b < 0 ∨ a = 0 ∨ b = 0 then 0 else harmonicMean a b

/-! ## Indicator engine (src/src/components/Tooltip.js)

Data points carry an `x` field and a `y` value field (the JS default field
names `xField = 'x'`, `valueField = 'y'`); either may be absent or
non-numeric, which is modelled by `Option ℚ`. -/

/-- A caller-supplied data point: the fields `x` and `y` of a JS object,
`none` when the field is absent or not a number. -/
structure DataPoint where
  x : Option ℚ
  y : Option ℚ
deriving DecidableEq

/-- One output point of an indicator computation, one constructor per output
shape built by `calculateSMA`/`calculateEMA` (`point`), Bollinger (`band`),
RSI (`rsiPoint`) and MACD (`macdPoint`). -/
inductive IndicatorPoint where
  | point (x : Option ℚ) (value : Option ℚ) (original : Option ℚ)
  | band (x : Option ℚ) (middle upper lower : Option ℚ) (original : Option ℚ)
  | rsiPoint (x : Option ℚ) (rsi avgGain avgLoss : Option ℚ) (original : Option ℚ)
  | macdPoint (x : Option ℚ) (macd signal histogram : Option ℚ) (original : Option ℚ)
deriving DecidableEq

/-- JS addition where either operand may be non-numeric (`NaN`-contaminating). -/
def oadd : Option ℚ → Option ℚ → Option ℚ
  | some a, some b => some (a + b)
  | _, _ => none

/-- JS subtraction with non-numeric contamination. -/
def osub : Option ℚ → Option ℚ → Option ℚ
  | some a, some b => some (a - b)
  | _, _ => none

/-- JS multiplication with non-numeric contamination. -/
def omul : Option ℚ → Option ℚ → Option ℚ
  | some a, some b => some (a * b)
  | _, _ => none

/-- JS division with non-numeric contamination (every division the code
performs has a provably nonzero denominator when both operands are numeric). -/
def odiv : Option ℚ → Option ℚ → Option ℚ
  | some a, some b => if b = 0 then none else some (a / b)
  | _, _ => none

/-- JS negation with non-numeric contamination. -/
def oneg : Option ℚ → Option ℚ
  | some a => some (-a)
  | none => none

/-- The JS comparison `v >= 0`, which is `false` for a non-numeric `v`. -/
def ogeZero : Option ℚ → Bool
  | some a => 0 ≤ a
  | none => false

/-- The JS comparison `v < 0`, which is `false` for a non-numeric `v`. -/
def oltZero : Option ℚ → Bool
  | some a => a < 0
  | none => false

/-- Runs a throwing loop body over a list, accumulating the produced values
in order and propagating the first thrown error — the embedding of a JS
`for` loop that `push`es one result per iteration and may `throw`. -/
def mapME (f : α → Except String β) : List α → Except String (List β)
  | [] => .ok []
  | a :: l =>
    match f a with
    | .error e => .error e
    | .ok b =>
      match mapME f l with
      | .error e => .error e
      | .ok bs => .ok (b :: bs)

/-- The indicator parameter object: each field `none` when the caller did not
supply it (the JS destructuring defaults then apply). -/
structure IndicatorParams where
  period : Option ℚ
  deviations : Option ℚ
  fastPeriod : Option ℚ
  slowPeriod : Option ℚ
  signalPeriod : Option ℚ
deriving DecidableEq

/-- Parameters with only `period` set. -/
def periodParams (p : ℚ) : IndicatorParams := ⟨some p, none, none, none, none⟩

/-- The JS test `period <= 0 || !Number.isInteger(period)` on a rational. -/
def badPeriod (period : ℚ) : Prop := period ≤ 0 ∨ period.den ≠ 1

instance : DecidablePred badPeriod := fun _ => by unfold badPeriod; infer_instance

/-- Embeds `calculateSMA` (src/src/components/Tooltip.js lines 297-334):
after validating the period, for every index `i` (skipping `i < period-1`)
it sums the window `data[i-j][valueField]`, `j = 0 .. period-1`, throwing
`Invalid value ...` at the first non-numeric value, and pushes a point with
the window average. -/
def smaWindowValue (data : List DataPoint) (i j : ℕ) : Except String ℚ :=
  match (data[i - j]?).bind DataPoint.y with
  | some v => .ok v
  | none => .error "Invalid value at index"

/-- The loop body of `calculateSMA` for one kept index `i`: sum the trailing
window (throwing at the first non-numeric value) and build the output point
with the window average. -/
def smaPointAt (data : List DataPoint) (period : ℚ) (p i : ℕ) :
    Except String IndicatorPoint :=
  match mapME (smaWindowValue data i) (List.range p) with
  | .error e => .error e
  | .ok vals => .ok (IndicatorPoint.point ((data[i]?).bind DataPoint.x)
      (some (vals.sum / period)) ((data[i]?).bind DataPoint.y))

def calculateSMA (data : List DataPoint) (params : IndicatorParams) :
    Except String (List IndicatorPoint) :=
  let period := params.period.getD 14
  if badPeriod period then .error "SMA period must be a positive integer"
  else
    let p := period.num.toNat
    mapME (smaPointAt data period p)
      ((List.range data.length).filter (fun i => ¬ i < p - 1))

/-- The loop body of `calculateEMA` for one kept index `i`: seed with the
window average at `i = period-1`, afterwards
`ema = (value - ema) * multiplier + ema`; push one point per iteration.
State: (output so far, current `ema`, where `none` is both the initial JS
`null` — never read, since the seed branch always runs first — and a
non-numeric value). -/
def emaStep (data : List DataPoint) (period : ℚ) (p : ℕ) (multiplier : ℚ)
    (st : List IndicatorPoint × Option ℚ) (i : ℕ) : List IndicatorPoint × Option ℚ :=
  let ema :=
    if i = p - 1 then
      odiv (((List.range p).map (fun j => (data[i - j]?).bind DataPoint.y)).foldl
        oadd (some 0)) (some period)
    else
      oadd (omul (osub ((data[i]?).bind DataPoint.y) st.2) (some multiplier)) st.2
  (st.1 ++ [IndicatorPoint.point ((data[i]?).bind DataPoint.x) ema
    ((data[i]?).bind DataPoint.y)], ema)

/-- Embeds `calculateEMA` (src/src/components/Tooltip.js lines 342-385):
after validating the period, a single pass seeds the EMA with the window
average at `i = period-1` and afterwards applies
`ema = (value - ema) * multiplier + ema`; the body performs no value check
and never throws.  The fold state is (output so far, current `ema`). -/
def calculateEMA (data : List DataPoint) (params : IndicatorParams) :
    Except String (List IndicatorPoint) :=
  let period := params.period.getD 14
  if badPeriod period then .error "EMA period must be a positive integer"
  else
    let p := period.num.toNat
    let multiplier : ℚ := 2 / (period + 1)
    .ok ((((List.range data.length).filter (fun i => ¬ i < p - 1)).foldl
      (emaStep data period p multiplier)
      (([] : List IndicatorPoint), (none : Option ℚ))).1)

/-- The push step shared by both RSI branches: an entry whose `rsi` field is
`100` when `avgLoss === 0` and `100 - 100/(1 + avgGain/avgLoss)` otherwise. -/
def rsiEntry (x avgGain avgLoss orig : Option ℚ) : IndicatorPoint :=
  if avgLoss = some 0 then .rsiPoint x (some 100) avgGain avgLoss orig
  else .rsiPoint x (osub (some 100) (odiv (some 100) (oadd (some 1) (odiv avgGain avgLoss))))
    avgGain avgLoss orig

/-- Reads `result[result.length - 1].avgGain` — the code only ever pushes
RSI entries, so the other cases are unreachable. -/
def lastAvgGain (l : List IndicatorPoint) : Option ℚ :=
  match l.getLast? with
  | some (.rsiPoint _ _ ag _ _) => ag
  | _ => none

/-- Reads `result[result.length - 1].avgLoss`. -/
def lastAvgLoss (l : List IndicatorPoint) : Option ℚ :=
  match l.getLast? with
  | some (.rsiPoint _ _ _ al _) => al
  | _ => none

/-- The loop body of `calculateRSI` for data index `i`.  Index 0 is skipped;
indices `1 .. period` accumulate the seed gain/loss sums (pushing the first
entry at `i = period`); later indices apply Wilder smoothing reading the
previous averages back from the last pushed entry.
State: (output so far, `gains`, `losses`). -/
def rsiStep (data : List DataPoint) (period : ℚ) (p : ℕ)
    (st : List IndicatorPoint × Option ℚ × Option ℚ) (i : ℕ) :
    List IndicatorPoint × Option ℚ × Option ℚ :=
  if i = 0 then st
  else
    let change := osub ((data[i]?).bind DataPoint.y) ((data[i-1]?).bind DataPoint.y)
    if i ≤ p then
      let gains := if ogeZero change then oadd st.2.1 change else st.2.1
      let losses := if ogeZero change then st.2.2 else osub st.2.2 change
      if i < p then (st.1, gains, losses)
      else
        let avgGain := odiv gains (some period)
        let avgLoss := odiv losses (some period)
        (st.1 ++ [rsiEntry ((data[i]?).bind DataPoint.x) avgGain avgLoss
          ((data[i]?).bind DataPoint.y)], gains, losses)
    else
      let previousAvgGain := lastAvgGain st.1
      let previousAvgLoss := lastAvgLoss st.1
      let currentGain := if ogeZero change then change else some 0
      let currentLoss := if oltZero change then oneg change else some 0
      let avgGain := odiv (oadd (omul previousAvgGain (some (period - 1))) currentGain)
        (some period)
      let avgLoss := odiv (oadd (omul previousAvgLoss (some (period - 1))) currentLoss)
        (some period)
      (st.1 ++ [rsiEntry ((data[i]?).bind DataPoint.x) avgGain avgLoss
        ((data[i]?).bind DataPoint.y)], st.2)

/-- Embeds `calculateRSI` (src/src/components/Tooltip.js lines 457-551):
one pass over the data; index 0 is skipped, indices `1 .. period` accumulate
the seed gain/loss sums (pushing the first entry at `i = period` with the
plain window averages), and later indices apply Wilder smoothing
`avg = (prevAvg*(period-1) + current)/period` reading `prevAvg` back from the
last pushed entry.  Fold state: (output so far, `gains`, `losses`). -/
def calculateRSI (data : List DataPoint) (params : IndicatorParams) :
    Except String (List IndicatorPoint) :=
  let period := params.period.getD 14
  if badPeriod period then .error "RSI period must be a positive integer"
  else
    let p := period.num.toNat
    .ok (((List.range data.length).foldl (rsiStep data period p)
      (([] : List IndicatorPoint), (some 0 : Option ℚ), (some 0 : Option ℚ))).1)

/-- Embeds `calculateBollingerBands` (src/src/components/Tooltip.js lines
393-449).  `Math.sqrt` has no exact counterpart on `ℚ`, so it is abstracted
as the parameter `sqrtFn`; no claim settled here depends on its values. -/
def calculateBollingerBands (data : List DataPoint) (params : IndicatorParams)
    (sqrtFn : ℚ → ℚ) : Except String (List IndicatorPoint) :=
  let period := params.period.getD 20
  let deviations := params.deviations.getD 2
  if badPeriod period then .error "Bollinger Bands period must be a positive integer"
  else if deviations ≤ 0 then .error "Bollinger Bands deviations must be positive"
  else
    let p := period.num.toNat
    .ok (((List.range data.length).filter (fun i => ¬ i < p - 1)).map (fun i =>
      let sum := ((List.range p).map (fun j => (data[i - j]?).bind DataPoint.y)).foldl
        oadd (some 0)
      let sma := odiv sum (some period)
      let sumSq := ((List.range p).map (fun j =>
        let dev := osub ((data[i - j]?).bind DataPoint.y) sma
        omul dev dev)).foldl oadd (some 0)
      let stdDev := (odiv sumSq (some period)).map sqrtFn
      let upperBand := oadd sma (omul stdDev (some deviations))
      let lowerBand := osub sma (omul stdDev (some deviations))
      .band ((data[i]?).bind DataPoint.x) sma upperBand lowerBand
        ((data[i]?).bind DataPoint.y)))

/-- One EMA array of `calculateMACD`: the source computes the fast and slow
EMAs in a single loop whose two halves share no state, embedded here as one
pass per period.  Entry `i` is `none` while `i < p - 1` (the JS `null`),
otherwise carries the running EMA value. -/
def macdEmaPass (data : List DataPoint) (p : ℕ) (periodQ mult : ℚ) :
    List (Option (Option ℚ)) :=
  (((List.range data.length).foldl
    (fun (st : List (Option (Option ℚ)) × Option (Option ℚ)) i =>
      if i < p - 1 then (st.1 ++ [none], st.2)
      else if i = p - 1 then
        let e := odiv (((List.range p).map (fun j => (data[i - j]?).bind DataPoint.y)).foldl
          oadd (some 0)) (some periodQ)
        (st.1 ++ [some e], some e)
      else
        let v := (data[i]?).bind DataPoint.y
        let prev := st.2.getD none
        let e := oadd (omul (osub v prev) (some mult)) prev
        (st.1 ++ [some e], some e))
    (([] : List (Option (Option ℚ))), (none : Option (Option ℚ)))).1)

/-- Embeds `calculateMACD` (src/src/components/Tooltip.js lines 559-683):
fast/slow EMA arrays, their difference as the MACD line wherever both exist,
a signal line seeded at `i = slowPeriod + signalPeriod - 2` by the mean of
the available MACD values in the trailing `signalPeriod` window and smoothed
as an EMA afterwards, and one output point wherever MACD and signal are both
non-null.  The outer `Option` is the JS `null`, the inner one the
non-numeric-value model. -/
def calculateMACD (data : List DataPoint) (params : IndicatorParams) :
    Except String (List IndicatorPoint) :=
  let fastPeriod := params.fastPeriod.getD 12
  let slowPeriod := params.slowPeriod.getD 26
  let signalPeriod := params.signalPeriod.getD 9
  if badPeriod fastPeriod then .error "MACD fast period must be a positive integer"
  else if badPeriod slowPeriod then .error "MACD slow period must be a positive integer"
  else if badPeriod signalPeriod then .error "MACD signal period must be a positive integer"
  else
    let fp := fastPeriod.num.toNat
    let sp := slowPeriod.num.toNat
    let gp := signalPeriod.num.toNat
    let fastEMAs := macdEmaPass data fp fastPeriod (2 / (fastPeriod + 1))
    let slowEMAs := macdEmaPass data sp slowPeriod (2 / (slowPeriod + 1))
    let macdLine := (List.range data.length).map (fun i =>
      if i < sp - 1 then none
      else
        match fastEMAs.getD i none, slowEMAs.getD i none with
        | some f, some s => some (osub f s)
        | _, _ => (none : Option (Option ℚ)))
    let signalMultiplier : ℚ := 2 / (signalPeriod + 1)
    let signalLine := (((List.range data.length).foldl
      (fun (st : List (Option (Option ℚ)) × Option (Option ℚ)) i =>
        if i < sp + gp - 2 ∨ macdLine.getD i none = none then (st.1 ++ [none], st.2)
        else if i = sp + gp - 2 then
          let vals := (List.range gp).filterMap (fun j =>
            if j ≤ i then macdLine.getD (i - j) none else none)
          let e := if 0 < vals.length then
              some (odiv (vals.foldl oadd (some 0)) (some (vals.length : ℚ)))
            else none
          (st.1 ++ [e], e)
        else
          match st.2 with
          | some prev =>
            let m := (macdLine.getD i none).getD none
            let e := oadd (omul (osub m prev) (some signalMultiplier)) prev
            (st.1 ++ [some e], some e)
          | none => (st.1 ++ [none], st.2))
      (([] : List (Option (Option ℚ))), (none : Option (Option ℚ)))).1)
    .ok ((List.range data.length).filterMap (fun i =>
      match macdLine.getD i none, signalLine.getD i none with
      | some m, some s => some (.macdPoint ((data[i]?).bind DataPoint.x) m s (osub m s)
          ((data[i]?).bind DataPoint.y))
      | _, _ => none))

/-- Embeds `calculateIndicator` (src/src/components/Tooltip.js lines
269-289).  The JS guard `!data || !Array.isArray(data) || data.length === 0`
returns `[]` before touching `params`; `none` models a `data` argument that
is `null`, `undefined` or not an array.  The dispatch lower-cases the
indicator name and throws `Unsupported indicator` on an unknown one. -/
def calculateIndicator (indicator : String) (data : Option (List DataPoint))
    (params : IndicatorParams) (sqrtFn : ℚ → ℚ) : Except String (List IndicatorPoint) :=
  match data with
  | none => .ok []
  | some d =>
    if d.isEmpty then .ok []
    else
      match indicator.toLower with
      | "sma" => calculateSMA d params
      | "ema" => calculateEMA d params
      | "bollinger" => calculateBollingerBands d params sqrtFn
      | "rsi" => calculateRSI d params
      | "macd" => calculateMACD d params
      | _ => .error ("Unsupported indicator: " ++ indicator)

/-! ## Series stacking (src/unnamed/part_003, `createStackedData`) -/

/-- One stacked output point `{x, y, originalValue}`. -/
structure StackedPoint where
  x : ℚ
  y : ℚ
  originalValue : ℚ
deriving DecidableEq

/-- The per-dataset lookup `Map` keyed by x: only points with both fields
defined are inserted, and a later `Map.set` on the same key overwrites an
earlier one, so a query returns the value of the last matching point. -/
def mapGet (ds : List DataPoint) (xv : ℚ) : Option ℚ :=
  (ds.filterMap (fun d =>
    match d.x, d.y with
    | some a, some b => if a = xv then some b else none
    | _, _ => none)).getLast?

/-- The deduplicated, numerically sorted union of the x keys of all
datasets (the JS `Set` piped through `Array.from(...).sort((a,b) => a-b)`). -/
def sortedXValues (datasets : List (List DataPoint)) : List ℚ :=
  ((datasets.map (fun ds => ds.filterMap DataPoint.x)).flatten.dedup).insertionSort (· ≤ ·)

/-- The stacked point dataset `k` produces at key `xv` (the body of the inner
`sortedXValues.map`): its own value (`|| 0`) plus the loop-accumulated values
of datasets `0 .. k-1`. -/
def stackedPointAt (datasets : List (List DataPoint)) (k : ℕ) (ds : List DataPoint)
    (xv : ℚ) : StackedPoint :=
  let value := (mapGet ds xv).getD 0
  let stackedValue := (datasets.take k).foldl
    (fun acc d => acc + (mapGet d xv).getD 0) value
  ⟨xv, stackedValue, value⟩

/-- Embeds `createStackedData` (src/unnamed/part_003 lines 53-112): dataset 0
passes through unchanged (`Sum.inl`); every later dataset `k` is replaced by
one point per sorted x key. -/
def createStackedData (datasets : List (List DataPoint)) :
    List (List DataPoint ⊕ List StackedPoint) :=
  let xs := sortedXValues datasets
  datasets.enum.map (fun kd =>
    if kd.1 = 0 then Sum.inl kd.2
    else Sum.inr (xs.map (stackedPointAt datasets kd.1 kd.2)))

/-- The value dataset `i` contributes at key `xv`: its own mapped value, `0`
when missing (and `0` for an out-of-range index, which never occurs). -/
def ownValue (datasets : List (List DataPoint)) (i : ℕ) (xv : ℚ) : ℚ :=
  match datasets[i]? with
  | some d => (mapGet d xv).getD 0
  | none => 0

/-! ## Helper lemmas -/

/-- On a positive-domain log scale, distinct domain endpoints have distinct
base-`b` logarithms. -/
theorem logb_ne_of_ne {b x y : ℝ} (hb : 0 < b) (hb1 : b ≠ 1) (hx : 0 < x) (hy : 0 < y)
    (hne : x ≠ y) : Real.logb b x ≠ Real.logb b y := by
  intro h
  apply hne
  have hlb : Real.log b ≠ 0 := Real.log_ne_zero_of_pos_of_ne_one hb hb1
  have hlog : Real.log x = Real.log y := by
    have := h
    rw [Real.logb, Real.logb] at this
    field_simp at this
    exact this
  rw [← Real.exp_log hx, hlog, Real.exp_log hy]

/-! ## C1, C2, C9: scale claims -/

/-- C1.  For every Linear or Log scale whose domain pair and range pair are
each non-degenerate, and every domain value `v` (`v > 0` and positive domain
bounds with a valid base for Log), `invert (scale v) = v` in exact
arithmetic. -/
theorem round_trip_invert_scale :
    (∀ (s : LinearScale) (v : ℚ), s.domain.1 ≠ s.domain.2 → s.range.1 ≠ s.range.2 →
      s.invert (s.scale v) = v) ∧
    (∀ (s : LogScale) (v : ℝ), 0 < s.base → s.base ≠ 1 →
      0 < s.domain.1 → 0 < s.domain.2 → s.domain.1 ≠ s.domain.2 → s.range.1 ≠ s.range.2 →
      0 < v → ∃ w, s.scale v = .ok w ∧ s.invert w = .ok v) := by
  constructor
  · intro s v hd hr
    simp only [LinearScale.scale, LinearScale.invert, if_neg hd, if_neg hr]
    have hd' : s.domain.2 - s.domain.1 ≠ 0 := sub_ne_zero.mpr (Ne.symm hd)
    have hr' : s.range.2 - s.range.1 ≠ 0 := sub_ne_zero.mpr (Ne.symm hr)
    field_simp
    ring
  · intro s v hb hb1 hd0 hd1 hd hr hv
    have hvle : ¬ v ≤ 0 := not_le.mpr hv
    have hL : Real.logb s.base s.domain.1 ≠ Real.logb s.base s.domain.2 :=
      logb_ne_of_ne hb hb1 hd0 hd1 hd
    have hL' : Real.logb s.base s.domain.2 - Real.logb s.base s.domain.1 ≠ 0 :=
      sub_ne_zero.mpr (Ne.symm hL)
    have hr' : s.range.2 - s.range.1 ≠ 0 := sub_ne_zero.mpr (Ne.symm hr)
    have hscale : s.scale v = .ok (s.range.1 +
        (Real.logb s.base v - Real.logb s.base s.domain.1) * (s.range.2 - s.range.1) /
        (Real.logb s.base s.domain.2 - Real.logb s.base s.domain.1)) := by
      simp only [LogScale.scale, if_neg hvle, if_neg hd]
    refine ⟨_, hscale, ?_⟩
    simp only [LogScale.invert, if_neg hr]
    have harg : Real.logb s.base s.domain.1 +
        (s.range.1 + (Real.logb s.base v - Real.logb s.base s.domain.1) *
          (s.range.2 - s.range.1) / (Real.logb s.base s.domain.2 -
            Real.logb s.base s.domain.1) - s.range.1) *
        (Real.logb s.base s.domain.2 - Real.logb s.base s.domain.1) /
        (s.range.2 - s.range.1) = Real.logb s.base v := by
      field_simp
      ring
    rw [harg, Real.rpow_logb hb hb1 hv]

/-- Witness for C1 at the linear scale `domain = [0,10]`, `range = [0,100]`,
`v = 3` and the log scale `domain = [1,100]`, `range = [0,100]`, base 10,
`v = 2`. -/
theorem round_trip_invert_scale_witness :
    LinearScale.invert ⟨(0, 10), (0, 100)⟩ (LinearScale.scale ⟨(0, 10), (0, 100)⟩ 3) = 3 ∧
    ∃ w, LogScale.scale ⟨(1, 100), (0, 100), 10⟩ 2 = .ok w ∧
      LogScale.invert ⟨(1, 100), (0, 100), 10⟩ w = .ok 2 := by
  constructor
  · exact round_trip_invert_scale.1 ⟨(0, 10), (0, 100)⟩ 3 (by norm_num) (by norm_num)
  · exact round_trip_invert_scale.2 ⟨(1, 100), (0, 100), 10⟩ 2 (by norm_num) (by norm_num)
      (by norm_num) (by norm_num) (by norm_num) (by norm_num) (by norm_num)

/-- C2.  Linear and Log scales map domain endpoints to the corresponding
range endpoints, and the Log scale with domain `[1,100]`, range `[0,100]`,
base 10 maps `10 ↦ 50`, `1 ↦ 0`, `100 ↦ 100`. -/
theorem scale_endpoints :
    (∀ (s : LinearScale), s.domain.1 ≠ s.domain.2 →
      s.scale s.domain.1 = s.range.1 ∧ s.scale s.domain.2 = s.range.2) ∧
    (∀ (s : LogScale), 0 < s.base → s.base ≠ 1 →
      0 < s.domain.1 → 0 < s.domain.2 → s.domain.1 ≠ s.domain.2 →
      s.scale s.domain.1 = .ok s.range.1 ∧ s.scale s.domain.2 = .ok s.range.2) ∧
    (LogScale.scale ⟨(1, 100), (0, 100), 10⟩ 10 = .ok 50 ∧
      LogScale.scale ⟨(1, 100), (0, 100), 10⟩ 1 = .ok 0 ∧
      LogScale.scale ⟨(1, 100), (0, 100), 10⟩ 100 = .ok 100) := by
  refine ⟨?_, ?_, ?_⟩
  · intro s hd
    have hd' : s.domain.2 - s.domain.1 ≠ 0 := sub_ne_zero.mpr (Ne.symm hd)
    constructor
    · simp [LinearScale.scale, if_neg hd]
    · simp only [LinearScale.scale, if_neg hd]
      field_simp
  · intro s hb hb1 hd0 hd1 hd
    have h0 : ¬ s.domain.1 ≤ 0 := not_le.mpr hd0
    have h1 : ¬ s.domain.2 ≤ 0 := not_le.mpr hd1
    have hL' : Real.logb s.base s.domain.2 - Real.logb s.base s.domain.1 ≠ 0 :=
      sub_ne_zero.mpr (Ne.symm (logb_ne_of_ne hb hb1 hd0 hd1 hd))
    constructor
    · simp [LogScale.scale, if_neg h0, if_neg hd]
    · simp only [LogScale.scale, if_neg h1, if_neg hd, Except.ok.injEq]
      field_simp
  · have hlogb : Real.logb 10 100 = 2 := by
      rw [show (100 : ℝ) = 10 ^ (2 : ℕ) by norm_num, Real.logb_pow,
        Real.logb_self_eq_one (by norm_num)]
      norm_num
    have h10 : Real.logb 10 (10 : ℝ) = 1 := Real.logb_self_eq_one (by norm_num)
    have h1 : Real.logb 10 (1 : ℝ) = 0 := Real.logb_one
    refine ⟨?_, ?_, ?_⟩
    · simp only [LogScale.scale]
      norm_num [h10, h1, hlogb]
    · simp only [LogScale.scale]
      norm_num [h1]
    · simp only [LogScale.scale]
      norm_num [h1, hlogb]

/-- Witness for C2 at the linear scale `domain = [2,5]`, `range = [10,40]`
and the concrete log scale of the statement. -/
theorem scale_endpoints_witness :
    (LinearScale.scale ⟨(2, 5), (10, 40)⟩ 2 = 10 ∧ LinearScale.scale ⟨(2, 5), (10, 40)⟩ 5 = 40) ∧
    LogScale.scale ⟨(1, 100), (0, 100), 10⟩ 10 = .ok 50 := by
  exact ⟨scale_endpoints.1 ⟨(2, 5), (10, 40)⟩ (by norm_num), scale_endpoints.2.2.1⟩

/-- C3.  `createNiceDomain` returns an enclosing nice domain:
the degenerate case `min = max` yields `[min-1, max+1]` (so
`createNiceDomain 5 5 n = (4, 6)`), and otherwise (for an ordered input and a
positive desired count, where the JS arithmetic is exact) `niceMin ≤ min` and
`max ≤ niceMax`. -/
theorem createNiceDomain_encloses (min max count : ℚ) :
    (min = max → createNiceDomain min max count = (min - 1, max + 1)) ∧
    (min ≤ max → 0 < count →
      (createNiceDomain min max count).1 ≤ min ∧ max ≤ (createNiceDomain min max count).2) ∧
    createNiceDomain 5 5 count = (4, 6) := by
  refine ⟨fun h => by simp [createNiceDomain, h], fun hle hc => ?_, by norm_num [createNiceDomain]⟩
  by_cases h : min = max
  · simp [createNiceDomain, h]
  · simp only [createNiceDomain, if_neg h]
    set step0 : ℚ := (10 : ℚ) ^ Int.log 10 ((max - min) / count) with hstep0
    have hstep0pos : 0 < step0 := zpow_pos (by norm_num) _
    set ratio : ℚ := (max - min) / (count * step0) with hratio
    set step : ℚ := if 5 ≤ ratio then step0 * 5 else if 2 ≤ ratio then step0 * 2 else step0
      with hstep
    have hsteppos : 0 < step := by
      rw [hstep]
      split
      · linarith
      · split
        · linarith
        · exact hstep0pos
    constructor
    · calc ((⌊min / step⌋ : ℚ)) * step ≤ (min / step) * step :=
            mul_le_mul_of_nonneg_right (Int.floor_le _) hsteppos.le
        _ = min := div_mul_cancel₀ _ (ne_of_gt hsteppos)
    · calc max = (max / step) * step := (div_mul_cancel₀ _ (ne_of_gt hsteppos)).symm
        _ ≤ ((⌈max / step⌉ : ℚ)) * step :=
            mul_le_mul_of_nonneg_right (Int.le_ceil _) hsteppos.le

/-- Witness for C3 at `min = 3.7`, `max = 9.2`, `count = 5` (and the
degenerate pair `5, 5`). -/
theorem createNiceDomain_encloses_witness :
    ((createNiceDomain (37/10) (92/10) 5).1 ≤ 37/10 ∧
      (92/10 : ℚ) ≤ (createNiceDomain (37/10) (92/10) 5).2) ∧
    createNiceDomain 5 5 7 = (4, 6) := by
  exact ⟨(createNiceDomain_encloses (37/10) (92/10) 5).2.1 (by norm_num) (by norm_num),
    (createNiceDomain_encloses 5 5 7).2.2⟩

/-- C9 counterexample.  The claim says a Log scale configured (rebound via
`setDomain`) with a non-positive domain bound fails with a domain error; the
code performs no such validation — rebinding the domain to `(-5, 100)`
succeeds. -/
theorem logScale_setDomain_no_validation :
    LogScale.setDomain ⟨(1, 100), (0, 100), 10⟩ (-5, 100) = .ok ⟨(-5, 100), (0, 100), 10⟩ := rfl

/-- C9 (amended).  A Log scale throws the domain error exactly when `scale`
is applied to a non-positive value; `invert` never throws, and `setDomain`
accepts any domain pair without validation. -/
theorem logScale_error_conditions (s : LogScale) (v : ℝ) :
    ((∃ e, s.scale v = .error e) ↔ v ≤ 0) ∧
    (∀ w, ∃ r, s.invert w = .ok r) ∧
    (∀ d, ∃ s2, s.setDomain d = .ok s2 ∧ s2.domain = d) := by
  refine ⟨⟨fun ⟨e, he⟩ => ?_, fun h => ⟨"Log scale domain must be positive", by
    simp [LogScale.scale, if_pos h]⟩⟩, fun w => ?_, fun d => ⟨⟨d, s.range, s.base⟩, rfl, rfl⟩⟩
  · by_contra hv
    rw [LogScale.scale] at he
    simp only [if_neg hv] at he
    split at he <;> simp at he
  · rw [LogScale.invert]
    split
    · exact ⟨_, rfl⟩
    · exact ⟨_, rfl⟩

/-- Witness for C9 (amended): scaling `-3` on a concrete log scale produces
an error, and scaling is error-free exactly on positives. -/
theorem logScale_error_conditions_witness :
    ∃ e, LogScale.scale ⟨(1, 100), (0, 100), 10⟩ (-3) = .error e :=
  (logScale_error_conditions ⟨(1, 100), (0, 100), 10⟩ (-3)).1.mpr (by norm_num)

/-! ## C4: monotone cubic interpolation -/

theorem adjustTangents_length (l : List ℚ) : ∀ prev, (adjustTangents prev l).length = l.length := by
  induction l with
  | nil => intro prev; rfl
  | cons b rest ih => intro prev; simp [adjustTangents, ih]

/-- The sequential adjustment loop, read off entry-wise: entry `i` of the
output is computed from entry `i` of the input (a raw slope) and entry `i` of
`prev :: output` (the previously adjusted tangent). -/
theorem adjustTangents_rule (l : List ℚ) : ∀ (prev : ℚ) (i : ℕ) (x y : ℚ),
    (prev :: adjustTangents prev l)[i]? = some x → l[i]? = some y →
    (adjustTangents prev l)[i]? = some (if x * y ≤ 0 then 0 else x * y / (x + y)) := by
  induction l with
  | nil => intro prev i x y _ hy; simp at hy
  | cons b rest ih =>
    intro prev i x y hx hy
    match i with
    | 0 =>
      simp only [List.getElem?_cons_zero, Option.some.injEq] at hx hy
      subst hx
      subst hy
      simp [adjustTangents]
    | Nat.succ n =>
      simp only [List.getElem?_cons_succ] at hx hy
      simp only [adjustTangents] at hx ⊢
      simp only [List.getElem?_cons_succ]
      exact ih _ n x y hx hy

theorem slopes_length (points : List (ℚ × ℚ)) : (slopes points).length = points.length - 1 := by
  simp only [slopes, List.length_zipWith, List.length_tail]
  omega

/-- The Bézier-command loop, read off entry-wise. -/
theorem curveSegments_getElem (pts : List (ℚ × ℚ)) : ∀ (ts : List ℚ) (i : ℕ)
    (p q : ℚ × ℚ) (x y : ℚ),
    pts[i]? = some p → pts[i + 1]? = some q → ts[i]? = some x → ts[i + 1]? = some y →
    (curveSegments pts ts)[i]? =
      some (.curveTo (p.1 + (q.1 - p.1) / 3, p.2 + (q.1 - p.1) / 3 * x)
        (q.1 - (q.1 - p.1) / 3, q.2 - (q.1 - p.1) / 3 * y) q) := by
  induction pts with
  | nil => intro ts i p q x y hp _ _ _; simp at hp
  | cons a pts ih =>
    intro ts i p q x y hp hq hx hy
    match pts, ts with
    | [], _ =>
      rw [List.getElem?_cons_succ] at hq
      simp at hq
    | b :: rest, [] => simp at hx
    | b :: rest, [t0] =>
      rw [List.getElem?_cons_succ] at hy
      simp at hy
    | b :: rest, t0 :: t1 :: ts2 =>
      match i with
      | 0 =>
        simp only [zero_add, List.getElem?_cons_succ, List.getElem?_cons_zero,
          Option.some.injEq] at hp hq hx hy
        subst hp
        subst hq
        subst hx
        subst hy
        simp [curveSegments]
      | Nat.succ n =>
        rw [List.getElem?_cons_succ] at hp hq hx hy
        simp only [curveSegments, List.getElem?_cons_succ]
        exact ih (t1 :: ts2) n p q x y hp hq hx hy

/-- C4 counterexample.  On the strictly increasing points
`(0,0), (1,1), (2,2)` both adjacent segment slopes are `1`, whose harmonic
mean is `1` (and the claim's opposite-sign/zero escape does not apply), yet
the code computes the interior tangent `(a*b)/(a+b) = 1/2` — half the
harmonic mean. -/
theorem monotone_tangent_not_harmonic_mean :
    slopes [(0, 0), (1, 1), (2, 2)] = [1, 1] ∧
    claimInteriorTangent 1 1 = 1 ∧
    monotoneTangents [(0, 0), (1, 1), (2, 2)] = [1, 1/2, 1] ∧
    ((1 : ℚ)/2) ≠ 1 := by
  refine ⟨by norm_num [slopes], by norm_num [claimInteriorTangent, harmonicMean], ?_, by norm_num⟩
  norm_num [monotoneTangents, slopes, adjustTangents]

/-- C4 (amended).  For `n ≥ 3` scaled points the tangent array has one entry
per point; the boundary entries are the raw first and last segment slopes;
each interior entry is computed sequentially from the *already adjusted*
previous tangent `x` and the raw slope `y` of the following segment as `0`
when `x*y ≤ 0` (opposite signs or either zero) and `(x*y)/(x+y)` — half the
harmonic mean — otherwise; and segment `i` of the generated path is a cubic
Bézier whose control points sit at `1/3` and `2/3` of the segment's
horizontal span along the tangent directions. -/
theorem generateMonotonePath_spec (points : List (ℚ × ℚ)) (hlen : 3 ≤ points.length) :
    (monotoneTangents points).length = points.length ∧
    (monotoneTangents points)[0]? = (slopes points)[0]? ∧
    (monotoneTangents points).getLast? = (slopes points).getLast? ∧
    (∀ (i : ℕ) (x y : ℚ), 1 ≤ i → i < (slopes points).length →
      (monotoneTangents points)[i - 1]? = some x → (slopes points)[i]? = some y →
      (monotoneTangents points)[i]? = some (if x * y ≤ 0 then 0 else x * y / (x + y))) ∧
    (∀ (i : ℕ) (p q : ℚ × ℚ) (x y : ℚ), points[i]? = some p → points[i + 1]? = some q →
      (monotoneTangents points)[i]? = some x → (monotoneTangents points)[i + 1]? = some y →
      (generateMonotonePath points)[i + 1]? =
        some (.curveTo (p.1 + (q.1 - p.1) / 3, p.2 + (q.1 - p.1) / 3 * x)
          (q.1 - (q.1 - p.1) / 3, q.2 - (q.1 - p.1) / 3 * y) q)) := by
  have hslen : (slopes points).length = points.length - 1 := slopes_length points
  have hm2 : 2 ≤ (slopes points).length := by omega
  obtain ⟨m0, mrest, hm⟩ : ∃ m0 mrest, slopes points = m0 :: mrest := by
    cases hsl : slopes points with
    | nil => rw [hsl] at hm2; simp at hm2
    | cons a l => exact ⟨a, l, rfl⟩
  have ht : monotoneTangents points =
      m0 :: (adjustTangents m0 mrest ++ [(m0 :: mrest).getLast (by simp)]) := by
    rw [monotoneTangents, hm]
  have hAlen : (adjustTangents m0 mrest).length = mrest.length := adjustTangents_length mrest m0
  have hmlen : mrest.length + 1 = (slopes points).length := by rw [hm]; simp
  have htlen : (monotoneTangents points).length = points.length := by
    rw [ht]
    simp only [List.length_cons, List.length_append, hAlen, List.length_nil]
    omega
  refine ⟨htlen, ?_, ?_, ?_, ?_⟩
  · rw [ht, hm]
    simp
  · rw [ht, hm]
    rw [show m0 :: (adjustTangents m0 mrest ++ [(m0 :: mrest).getLast (by simp)]) =
      (m0 :: adjustTangents m0 mrest) ++ [(m0 :: mrest).getLast (by simp)] from rfl]
    rw [List.getLast?_concat]
    exact (List.getLast?_eq_getLast _ (by simp)).symm
  · intro i x y hi1 hilt hx hy
    obtain ⟨i2, rfl⟩ : ∃ i2, i = i2 + 1 := ⟨i - 1, by omega⟩
    have hi2A : i2 < (adjustTangents m0 mrest).length := by
      rw [hAlen]; omega
    have hyR : mrest[i2]? = some y := by
      rw [hm] at hy
      simpa using hy
    have hxR : (m0 :: adjustTangents m0 mrest)[i2]? = some x := by
      match i2, hx with
      | 0, hx =>
        rw [ht] at hx
        simpa using hx
      | Nat.succ j, hx =>
        rw [ht] at hx
        simp only [Nat.add_sub_cancel, List.getElem?_cons_succ] at hx
        rw [List.getElem?_append_left (by omega : j < (adjustTangents m0 mrest).length)] at hx
        simpa using hx
    have := adjustTangents_rule mrest m0 i2 x y hxR hyR
    rw [ht]
    simp only [List.getElem?_cons_succ]
    rw [List.getElem?_append_left hi2A]
    exact this
  · intro i p q x y hp hq hx hy
    have hnotlt : ¬ points.length < 3 := by omega
    obtain ⟨p0, prest, hpts⟩ : ∃ p0 prest, points = p0 :: prest := by
      cases hc : points with
      | nil => rw [hc] at hlen; simp at hlen
      | cons a l => exact ⟨a, l, rfl⟩
    have hpath : generateMonotonePath points =
        .moveTo p0 :: curveSegments points (monotoneTangents points) := by
      rw [generateMonotonePath.eq_def, if_neg hnotlt, hpts]
    rw [hpath, List.getElem?_cons_succ]
    exact curveSegments_getElem points (monotoneTangents points) i p q x y hp hq hx hy

/-- Witness for C4 (amended) on the points `(0,0), (1,1), (2,2)`: the
interior tangent obeys the sequential half-harmonic rule, here
`1*1/(1+1)`. -/
theorem generateMonotonePath_spec_witness :
    (monotoneTangents [(0, 0), (1, 1), (2, 2)])[1]? =
      some (if (1 : ℚ) * 1 ≤ 0 then 0 else (1 : ℚ) * 1 / (1 + 1)) := by
  have h := (generateMonotonePath_spec [(0, 0), (1, 1), (2, 2)] (by norm_num)).2.2.2.1
    1 1 1 (by norm_num) (by norm_num [slopes_length])
    (by norm_num [monotoneTangents, slopes, adjustTangents])
    (by norm_num [slopes])
  simpa using h

/-! ## C5, C8: SMA and EMA -/

/-- A throwing loop whose every iteration succeeds collects the per-iteration
results in order. -/
theorem mapME_ok {f : α → Except String β} {g : α → β} :
    ∀ {l : List α}, (∀ a ∈ l, f a = .ok (g a)) → mapME f l = .ok (l.map g) := by
  intro l
  induction l with
  | nil => intro _; rfl
  | cons a rest ih =>
    intro h
    rw [mapME, h a (List.mem_cons_self a rest), ih (fun b hb => h b (List.mem_cons_of_mem a hb))]
    rfl

/-- The skip guard `if (i < k) continue` over ascending indices keeps exactly
the tail `k, k+1, ..., n-1`. -/
theorem range_filter_not_lt (k : ℕ) : ∀ (n : ℕ),
    (List.range n).filter (fun i => ¬ i < k) = (List.range (n - k)).map (· + k) := by
  intro n
  induction n with
  | zero => simp
  | succ n ih =>
    rw [List.range_succ, List.filter_append, ih]
    by_cases h : k ≤ n
    · have h1 : n + 1 - k = (n - k) + 1 := by omega
      rw [h1, List.range_succ, List.map_append]
      have hnk : n - k + k = n := by omega
      have h2 : List.map (· + k) [n - k] = [n] := by simp [hnk]
      rw [h2]
      congr 1
      simp [List.filter_cons, Nat.not_lt.mpr h]
    · have h1 : n + 1 - k = 0 := by omega
      have h2 : n - k = 0 := by omega
      rw [h1, h2]
      have hnk : n < k := by omega
      simp [List.filter_cons, hnk]

/-- Summing a trailing window by descending offsets (`data[i-j]`, as the code
does) equals summing the same window read off ascending (`drop`/`take`). -/
theorem window_sum_take (ds : List (ℚ × ℚ)) (j p : ℕ) (hjp : j + p ≤ ds.length) :
    ((List.range p).map (fun t => ((ds[j + p - 1 - t]?).map Prod.snd).getD 0)).sum
      = (((ds.drop j).take p).map Prod.snd).sum := by
  have hlen : (((ds.drop j).take p).map Prod.snd).length = p := by
    simp only [List.length_map, List.length_take, List.length_drop]
    omega
  have hrev : (List.range p).map (fun t => ((ds[j + p - 1 - t]?).map Prod.snd).getD 0)
      = (((ds.drop j).take p).map Prod.snd).reverse := by
    apply List.ext_getElem?
    intro k
    by_cases hk : k < p
    · rw [List.getElem?_map, List.getElem?_range hk]
      rw [List.getElem?_reverse (by rw [hlen]; exact hk), hlen]
      rw [List.getElem?_map, List.getElem?_take]
      rw [if_pos (by omega), List.getElem?_drop]
      simp only [Option.map_some']
      have hidx : j + (p - 1 - k) = j + p - 1 - k := by omega
      rw [hidx]
      have hin : j + p - 1 - k < ds.length := by omega
      obtain ⟨q, hq⟩ : ∃ q, ds[j + p - 1 - k]? = some q :=
        ⟨ds[j + p - 1 - k], List.getElem?_eq_getElem hin⟩
      rw [hq]
      rfl
    · rw [List.getElem?_eq_none (by simp only [List.length_map, List.length_range]; omega),
        List.getElem?_eq_none (by rw [List.length_reverse, hlen]; omega)]
  rw [hrev, List.sum_reverse]

/-- C5.  With a valid period `p ≥ 1` and fully numeric data, `calculateSMA`
emits one point per index `i ≥ p-1` (so the output has
`length - (p-1)` points), whose value is the arithmetic mean of the trailing
`p` values; and the end-to-end example with period 2 on
`(0,10) (1,12) (2,9) (3,15)` yields `(1,11) (2,10.5) (3,12)`. -/
theorem calculateSMA_spec :
    (∀ (ds : List (ℚ × ℚ)) (p : ℕ), 0 < p →
      ∃ l, calculateSMA (ds.map (fun v => ⟨some v.1, some v.2⟩)) (periodParams p) = .ok l ∧
        l.length = ds.length - (p - 1) ∧
        ∀ (j : ℕ) (q : ℚ × ℚ), ds[j + (p - 1)]? = some q →
          l[j]? = some (.point (some q.1)
            (some ((((ds.drop j).take p).map Prod.snd).sum / p)) (some q.2))) ∧
    calculateSMA [⟨some 0, some 10⟩, ⟨some 1, some 12⟩, ⟨some 2, some 9⟩, ⟨some 3, some 15⟩]
        (periodParams 2)
      = .ok [.point (some 1) (some 11) (some 12), .point (some 2) (some (21/2)) (some 9),
          .point (some 3) (some 12) (some 15)] := by
  constructor
  · intro ds p hp
    have hbad : ¬ badPeriod ((p : ℕ) : ℚ) := by
      simp only [badPeriod, Rat.den_natCast, not_or]
      refine ⟨by simp only [not_le]; exact_mod_cast hp, by simp⟩
    rw [calculateSMA]
    simp only [periodParams, Option.getD_some, if_neg hbad, Rat.num_natCast, Int.toNat_natCast]
    set data : List DataPoint := ds.map (fun v => ⟨some v.1, some v.2⟩) with hdata
    have hdlen : data.length = ds.length := by rw [hdata, List.length_map]
    have hdsome : ∀ (idx : ℕ), idx < ds.length → ∀ q, ds[idx]? = some q →
        data[idx]? = some ⟨some q.1, some q.2⟩ := by
      intro idx _ q hq
      rw [hdata, List.getElem?_map, hq]
      rfl
    rw [hdlen, range_filter_not_lt]
    set yAt : ℕ → ℚ := fun idx => ((ds[idx]?).map Prod.snd).getD 0 with hyAt
    set g : ℕ → IndicatorPoint := fun i =>
      .point ((data[i]?).bind DataPoint.x)
        (some ((((List.range p).map (fun t => yAt (i - t))).sum) / (p : ℚ)))
        ((data[i]?).bind DataPoint.y) with hg
    have hok : ∀ i ∈ (List.range (ds.length - (p - 1))).map (· + (p - 1)),
        smaPointAt data (p : ℚ) p i = Except.ok (g i) := by
      intro i hi
      obtain ⟨j, hj, rfl⟩ := List.mem_map.mp hi
      have hjlt : j < ds.length - (p - 1) := List.mem_range.mp hj
      have hwin : mapME (smaWindowValue data (j + (p - 1))) (List.range p)
          = .ok ((List.range p).map (fun t => yAt (j + (p - 1) - t))) := by
        apply mapME_ok
        intro t ht
        have htp : t < p := List.mem_range.mp ht
        have hidx : j + (p - 1) - t < ds.length := by omega
        obtain ⟨q, hq⟩ : ∃ q, ds[j + (p - 1) - t]? = some q :=
          ⟨ds[j + (p - 1) - t], List.getElem?_eq_getElem hidx⟩
        rw [smaWindowValue, hdsome _ hidx q hq]
        simp only [hyAt, hq]
        rfl
      rw [smaPointAt, hwin]
    rw [mapME_ok hok]
    refine ⟨_, rfl, ?_, ?_⟩
    · simp [List.length_map, List.length_range]
    · intro j q hq
      have hjin : j + (p - 1) < ds.length := by
        by_contra hcon
        rw [List.getElem?_eq_none (by omega)] at hq
        cases hq
      rw [List.getElem?_map, List.getElem?_map,
        List.getElem?_range (by omega : j < ds.length - (p - 1))]
      have hsum : ((List.range p).map (fun t => yAt (j + (p - 1) - t))).sum
          = (((ds.drop j).take p).map Prod.snd).sum := by
        have hidx : ∀ t : ℕ, j + (p - 1) - t = j + p - 1 - t := fun t => by omega
        simp only [hyAt, hidx]
        exact window_sum_take ds j p (by omega)
      show some (g (j + (p - 1))) = _
      simp only [hg]
      rw [hdsome _ hjin q hq, hsum]
      rfl
  · norm_num [calculateSMA, periodParams, badPeriod, mapME, smaPointAt, smaWindowValue,
      List.range_succ]

/-- Witness for C5 at the end-to-end example series with period 2: the
output exists and has 3 = 4 - (2-1) points. -/
theorem calculateSMA_spec_witness :
    ∃ l, calculateSMA ([((0 : ℚ), (10 : ℚ)), (1, 12), (2, 9), (3, 15)].map
        (fun v => ⟨some v.1, some v.2⟩)) (periodParams 2) = .ok l ∧ l.length = 3 := by
  obtain ⟨l, h1, h2, _⟩ := calculateSMA_spec.1 [(0, 10), (1, 12), (2, 9), (3, 15)] 2
    (by norm_num)
  exact ⟨l, h1, by simpa using h2⟩

/-- C8 counterexample.  The claim says a point missing the configured value
field never causes a throw (the output is merely shortened); but `calculateSMA`
on a single point whose `y` field is absent throws `Invalid value at index`
instead of omitting the point. -/
theorem calculateSMA_throws_on_missing_value :
    calculateSMA [⟨some 0, none⟩] (periodParams 1) = .error "Invalid value at index" := by
  norm_num [calculateSMA, periodParams, badPeriod, mapME, smaPointAt, smaWindowValue,
    List.range_succ]

/-- C8 (amended).  With a valid period, an input shorter than the window
produces the empty output without throwing for both SMA and EMA; and EMA
never throws regardless of the data (it carries non-numeric values into its
output instead).  A missing value field inside an SMA window, however, throws
(see the counterexample). -/
theorem indicator_short_input_omission :
    (∀ (data : List DataPoint) (p : ℕ), 0 < p → data.length < p →
      calculateSMA data (periodParams p) = .ok [] ∧
      calculateEMA data (periodParams p) = .ok []) ∧
    (∀ (data : List DataPoint) (p : ℕ), 0 < p →
      ∃ l, calculateEMA data (periodParams p) = .ok l) := by
  have hbad : ∀ p : ℕ, 0 < p → ¬ badPeriod ((p : ℕ) : ℚ) := by
    intro p hp
    simp only [badPeriod, Rat.den_natCast, not_or]
    refine ⟨by simp only [not_le]; exact_mod_cast hp, by simp⟩
  constructor
  · intro data p hp hlen
    have hzero : data.length - (p - 1) = 0 := by omega
    constructor
    · rw [calculateSMA]
      simp only [periodParams, Option.getD_some, if_neg (hbad p hp), Rat.num_natCast,
        Int.toNat_natCast]
      rw [range_filter_not_lt, hzero]
      rfl
    · rw [calculateEMA]
      simp only [periodParams, Option.getD_some, if_neg (hbad p hp), Rat.num_natCast,
        Int.toNat_natCast]
      rw [range_filter_not_lt, hzero]
      rfl
  · intro data p hp
    rw [calculateEMA]
    simp only [periodParams, Option.getD_some, if_neg (hbad p hp)]
    exact ⟨_, rfl⟩

/-- Witness for C8 (amended): a two-point window over a single point emits
nothing and does not throw. -/
theorem indicator_short_input_omission_witness :
    calculateSMA [⟨some 0, some 7⟩] (periodParams 2) = .ok [] ∧
    calculateEMA [⟨some 0, some 7⟩] (periodParams 2) = .ok [] :=
  indicator_short_input_omission.1 [⟨some 0, some 7⟩] 2 (by norm_num) (by norm_num)

/-! ## C7: series stacking -/

/-- The accumulation loop of `stackedPointAt`, summed in closed form. -/
theorem foldl_add_getD (xv : ℚ) : ∀ (L : List (List DataPoint)) (acc : ℚ),
    L.foldl (fun acc d => acc + (mapGet d xv).getD 0) acc
      = acc + (L.map (fun d => (mapGet d xv).getD 0)).sum := by
  intro L
  induction L with
  | nil => intro acc; simp
  | cons d L ih =>
    intro acc
    rw [List.foldl_cons, ih, List.map_cons, List.sum_cons]
    ring

/-- The per-dataset contributions over a prefix, as a `Finset` sum of
`ownValue`. -/
theorem take_map_sum (datasets : List (List DataPoint)) (xv : ℚ) : ∀ (k : ℕ),
    k ≤ datasets.length →
    ((datasets.take k).map (fun d => (mapGet d xv).getD 0)).sum
      = ∑ i ∈ Finset.range k, ownValue datasets i xv := by
  intro k
  induction k with
  | zero => intro _; simp
  | succ k ih =>
    intro hk
    obtain ⟨dk, hdk⟩ : ∃ dk, datasets[k]? = some dk :=
      ⟨datasets[k], List.getElem?_eq_getElem (by omega)⟩
    rw [List.take_succ, hdk, List.map_append, List.sum_append, ih (by omega),
      Finset.sum_range_succ]
    simp only [Option.toList_some, List.map_cons, List.map_nil, List.sum_cons, List.sum_nil,
      add_zero]
    rw [ownValue, hdk]

/-- C7.  The first series passes through stacking unchanged; for `k > 0` the
`k`-th stacked series has, at the `j`-th sorted x key `xv`, the point whose
`y` is the sum of the contributions (`0` when missing) of series `0 .. k` and
whose `originalValue` is the series own contribution; in particular if every
series `0 .. k` contributes the same value `v` at `xv`, the stacked value is
`(k+1)*v`. -/
theorem createStackedData_spec (datasets : List (List DataPoint)) :
    (createStackedData datasets)[0]? = (datasets[0]?).map Sum.inl ∧
    (∀ (k : ℕ) (ds : List DataPoint), 0 < k → datasets[k]? = some ds →
      ∀ (j : ℕ) (xv : ℚ), (sortedXValues datasets)[j]? = some xv →
      ∃ pts, (createStackedData datasets)[k]? = some (.inr pts) ∧
        pts[j]? = some ⟨xv, ∑ i ∈ Finset.range (k + 1), ownValue datasets i xv,
          ownValue datasets k xv⟩ ∧
        ∀ v : ℚ, (∀ i, i ≤ k → ownValue datasets i xv = v) →
          pts[j]? = some ⟨xv, ((k : ℚ) + 1) * v, v⟩) := by
  constructor
  · simp only [createStackedData, List.getElem?_map, List.getElem?_enum]
    cases h : datasets[0]? with
    | none => rfl
    | some d => simp
  · intro k ds hk hds j xv hxv
    have hkl : k < datasets.length := by
      by_contra hcon
      rw [List.getElem?_eq_none (by omega)] at hds
      cases hds
    have hmain : (createStackedData datasets)[k]? =
        some (.inr ((sortedXValues datasets).map (stackedPointAt datasets k ds))) := by
      simp only [createStackedData, List.getElem?_map, List.getElem?_enum, hds,
        Option.map_some']
      rw [if_neg (show ¬ k = 0 by omega)]
    have hown : (mapGet ds xv).getD 0 = ownValue datasets k xv := by
      rw [ownValue, hds]
    have hB : ((sortedXValues datasets).map (stackedPointAt datasets k ds))[j]? =
        some ⟨xv, ∑ i ∈ Finset.range (k + 1), ownValue datasets i xv,
          ownValue datasets k xv⟩ := by
      rw [List.getElem?_map, hxv, Option.map_some']
      simp only [stackedPointAt]
      rw [foldl_add_getD, take_map_sum datasets xv k (le_of_lt hkl), hown,
        Finset.sum_range_succ, add_comm]
    refine ⟨_, hmain, hB, ?_⟩
    intro v hv
    rw [hB]
    have hsum : ∑ i ∈ Finset.range (k + 1), ownValue datasets i xv = ((k : ℚ) + 1) * v := by
      rw [Finset.sum_congr rfl (fun i hi => hv i (by
        have := Finset.mem_range.mp hi
        omega)), Finset.sum_const, Finset.card_range, nsmul_eq_mul]
      push_cast
      ring
    rw [hsum, hv k le_rfl]

/-- Witness for C7 on two constant series with value 5 at keys 0 and 1:
stacking leaves series 0 alone and doubles series 1. -/
theorem createStackedData_spec_witness :
    ∃ pts, (createStackedData [[⟨some 0, some 5⟩, ⟨some 1, some 5⟩],
        [⟨some 0, some 5⟩, ⟨some 1, some 5⟩]])[1]? = some (.inr pts) ∧
      pts[0]? = some ⟨0, ((1 : ℚ) + 1) * 5, 5⟩ := by
  have h := (createStackedData_spec [[⟨some 0, some 5⟩, ⟨some 1, some 5⟩],
      [⟨some 0, some 5⟩, ⟨some 1, some 5⟩]]).2 1 [⟨some 0, some 5⟩, ⟨some 1, some 5⟩]
    (by norm_num) (by rfl) 0 0 (by rfl)
  obtain ⟨pts, h1, _, h3⟩ := h
  refine ⟨pts, h1, ?_⟩
  have hv := h3 5 (fun i hi => ?_)
  · simpa using hv
  · interval_cases i <;> rfl

/-! ## C10: calculateIndicator empty-input guard -/

/-- C10.  For every indicator name and every parameter object (valid or
not), `calculateIndicator` returns the empty array without throwing when the
data argument is `null`/`undefined`/not an array (modelled `none`) or the
empty array: the guard precedes any parameter validation and the dispatch. -/
theorem calculateIndicator_empty_input (indicator : String) (params : IndicatorParams)
    (sqrtFn : ℚ → ℚ) :
    calculateIndicator indicator none params sqrtFn = .ok [] ∧
    calculateIndicator indicator (some []) params sqrtFn = .ok [] :=
  ⟨rfl, rfl⟩

/-! ## C6: RSI -/

/-- A fully numeric input series: each pair becomes a data point with both
fields present. -/
def numericData (ds : List (ℚ × ℚ)) : List DataPoint :=
  ds.map (fun v => ⟨some v.1, some v.2⟩)

/-- The x value of the series at an index (junk `0` out of range; the
theorems only use in-range indices). -/
def xval (ds : List (ℚ × ℚ)) (i : ℕ) : ℚ := ((ds[i]?).map Prod.fst).getD 0

/-- The y (price) value of the series at an index. -/
def yval (ds : List (ℚ × ℚ)) (i : ℕ) : ℚ := ((ds[i]?).map Prod.snd).getD 0

/-- The price delta at index `i ≥ 1`: `value[i] - value[i-1]`. -/
def delta (ds : List (ℚ × ℚ)) (i : ℕ) : ℚ := yval ds i - yval ds (i - 1)

/-- The gain contributed by a delta (`change >= 0 ? change : 0`). -/
def gainOf (c : ℚ) : ℚ := if 0 ≤ c then c else 0

/-- The (positive) loss contributed by a delta (`change < 0 ? -change : 0`). -/
def lossOf (c : ℚ) : ℚ := if c < 0 then -c else 0

/-- Reference recursion for the claim: the `(avgGain, avgLoss)` pair of the
`k`-th emitted RSI entry (data index `p + k`).  `k = 0` is the seed — the
plain window averages of the first `p` deltas — and each later entry applies
Wilder smoothing `avg = (prevAvg*(p-1) + current)/p`. -/
def wilderAvgs (ds : List (ℚ × ℚ)) (p : ℕ) : ℕ → ℚ × ℚ
  | 0 => ((∑ t ∈ Finset.range p, gainOf (delta ds (t + 1))) / p,
      (∑ t ∈ Finset.range p, lossOf (delta ds (t + 1))) / p)
  | k + 1 =>
    (((wilderAvgs ds p k).1 * ((p : ℚ) - 1) + gainOf (delta ds (p + k + 1))) / p,
      ((wilderAvgs ds p k).2 * ((p : ℚ) - 1) + lossOf (delta ds (p + k + 1))) / p)

/-- The RSI value from an average-gain/average-loss pair: exactly `100` when
`avgLoss = 0`, else `100 - 100/(1 + avgGain/avgLoss)`. -/
def rsiOf (g l : ℚ) : ℚ := if l = 0 then 100 else 100 - 100 / (1 + g / l)

/-- The `k`-th RSI output entry the reference recursion predicts. -/
def rsiSpecEntry (ds : List (ℚ × ℚ)) (p k : ℕ) : IndicatorPoint :=
  .rsiPoint (some (xval ds (p + k)))
    (some (rsiOf (wilderAvgs ds p k).1 (wilderAvgs ds p k).2))
    (some (wilderAvgs ds p k).1) (some (wilderAvgs ds p k).2) (some (yval ds (p + k)))

theorem numericData_length (ds : List (ℚ × ℚ)) : (numericData ds).length = ds.length := by
  rw [numericData, List.length_map]

theorem numericData_getElem (ds : List (ℚ × ℚ)) (i : ℕ) (h : i < ds.length) :
    (numericData ds)[i]? = some ⟨some (xval ds i), some (yval ds i)⟩ := by
  rw [numericData, List.getElem?_map]
  obtain ⟨q, hq⟩ : ∃ q, ds[i]? = some q := ⟨ds[i], List.getElem?_eq_getElem h⟩
  rw [hq, Option.map_some']
  simp [xval, yval, hq]

/-- The `change` expression of `rsiStep` on numeric data is the delta. -/
theorem rsi_change (ds : List (ℚ × ℚ)) (i : ℕ) (h : i < ds.length) :
    osub (((numericData ds)[i]?).bind DataPoint.y)
      (((numericData ds)[i - 1]?).bind DataPoint.y) = some (delta ds i) := by
  rw [numericData_getElem ds i h, numericData_getElem ds (i - 1) (by omega)]
  simp [osub, delta]

theorem gain_if (g c : ℚ) :
    (if ogeZero (some c) then oadd (some g) (some c) else some g) = some (g + gainOf c) := by
  by_cases h : 0 ≤ c
  · rw [if_pos (by simp [ogeZero, h]), oadd, gainOf, if_pos h]
  · rw [if_neg (by simp [ogeZero, h]), gainOf, if_neg h, add_zero]

theorem loss_if (l c : ℚ) :
    (if ogeZero (some c) then some l else osub (some l) (some c)) = some (l + lossOf c) := by
  by_cases h : 0 ≤ c
  · rw [if_pos (by simp [ogeZero, h]), lossOf, if_neg (not_lt.mpr h), add_zero]
  · rw [if_neg (by simp [ogeZero, h]), osub, lossOf, if_pos (not_le.mp h)]
    congr 1
    ring

theorem current_gain_if (c : ℚ) :
    (if ogeZero (some c) then some c else some (0 : ℚ)) = some (gainOf c) := by
  by_cases h : 0 ≤ c
  · rw [if_pos (by simp [ogeZero, h]), gainOf, if_pos h]
  · rw [if_neg (by simp [ogeZero, h]), gainOf, if_neg h]

theorem current_loss_if (c : ℚ) :
    (if oltZero (some c) then oneg (some c) else some (0 : ℚ)) = some (lossOf c) := by
  by_cases h : c < 0
  · rw [if_pos (by simp [oltZero, h]), oneg, lossOf, if_pos h]
  · rw [if_neg (by simp [oltZero, h]), lossOf, if_neg h]

theorem wilderAvgs_nonneg (ds : List (ℚ × ℚ)) (p : ℕ) (hp : 0 < p) :
    ∀ k, 0 ≤ (wilderAvgs ds p k).1 ∧ 0 ≤ (wilderAvgs ds p k).2 := by
  have hgain : ∀ c : ℚ, 0 ≤ gainOf c := by
    intro c
    rw [gainOf]
    by_cases h : 0 ≤ c
    · rw [if_pos h]; exact h
    · rw [if_neg h]
  have hloss : ∀ c : ℚ, 0 ≤ lossOf c := by
    intro c
    rw [lossOf]
    by_cases h : c < 0
    · rw [if_pos h]; linarith
    · rw [if_neg h]
  have hpq : (0 : ℚ) ≤ p := by positivity
  have hp1 : (0 : ℚ) ≤ (p : ℚ) - 1 := by
    have : (1 : ℚ) ≤ p := by exact_mod_cast hp
    linarith
  intro k
  induction k with
  | zero =>
    constructor
    · exact div_nonneg (Finset.sum_nonneg (fun t _ => hgain _)) hpq
    · exact div_nonneg (Finset.sum_nonneg (fun t _ => hloss _)) hpq
  | succ k ih =>
    constructor
    · exact div_nonneg (add_nonneg (mul_nonneg ih.1 hp1) (hgain _)) hpq
    · exact div_nonneg (add_nonneg (mul_nonneg ih.2 hp1) (hloss _)) hpq

/-- `rsiEntry` on numeric nonnegative averages produces the `rsiOf` entry. -/
theorem rsiEntry_eq (x o : Option ℚ) (g l : ℚ) (hg : 0 ≤ g) (hl : 0 ≤ l) :
    rsiEntry x (some g) (some l) o
      = .rsiPoint x (some (rsiOf g l)) (some g) (some l) o := by
  rw [rsiEntry, rsiOf]
  by_cases h : l = 0
  · simp [h]
  · rw [if_neg (by simpa using h), if_neg h]
    have hlpos : 0 < l := lt_of_le_of_ne hl (Ne.symm h)
    have hden : (1 : ℚ) + g / l ≠ 0 := by
      have : 0 ≤ g / l := div_nonneg hg hl
      intro hc
      linarith
    simp [odiv, oadd, osub, h, hden]

/-- `rsiOf` is exactly 100 iff the average loss is zero (for nonnegative
averages, which is invariant). -/
theorem rsiOf_eq_100_iff (g l : ℚ) (hg : 0 ≤ g) (hl : 0 ≤ l) :
    rsiOf g l = 100 ↔ l = 0 := by
  constructor
  · intro h
    by_contra hlz
    rw [rsiOf, if_neg hlz] at h
    have hlpos : 0 < l := lt_of_le_of_ne hl (Ne.symm hlz)
    have hfrac : 0 ≤ g / l := div_nonneg hg hl
    have hden : (0 : ℚ) < 1 + g / l := by linarith
    have hq : (100 : ℚ) / (1 + g / l) > 0 := by positivity
    linarith
  · intro h
    rw [rsiOf, if_pos h]

theorem rsi_entries_getLast (ds : List (ℚ × ℚ)) (p k0 : ℕ) :
    lastAvgGain ((List.range (k0 + 1)).map (rsiSpecEntry ds p))
        = some (wilderAvgs ds p k0).1 ∧
    lastAvgLoss ((List.range (k0 + 1)).map (rsiSpecEntry ds p))
        = some (wilderAvgs ds p k0).2 := by
  have hlast : ((List.range (k0 + 1)).map (rsiSpecEntry ds p)).getLast?
      = some (rsiSpecEntry ds p k0) := by
    rw [List.getLast?_map, List.range_succ, List.getLast?_concat]
    rfl
  constructor
  · rw [lastAvgGain, hlast]
    rfl
  · rw [lastAvgLoss, hlast]
    rfl

/-- Processing indices `1 .. m` (all `< period`) accumulates the seed
gain/loss sums and emits nothing. -/
theorem rsi_accum (ds : List (ℚ × ℚ)) (p : ℕ) (hlen : p < ds.length) :
    ∀ (m : ℕ), m < p →
    (List.range' 1 m).foldl (rsiStep (numericData ds) (p : ℚ) p)
        ([], some 0, some 0)
      = ([], some (∑ t ∈ Finset.range m, gainOf (delta ds (t + 1))),
          some (∑ t ∈ Finset.range m, lossOf (delta ds (t + 1)))) := by
  intro m
  induction m with
  | zero => intro _; simp
  | succ m ih =>
    intro hm
    have hsplit : List.range' 1 (m + 1) = List.range' 1 m ++ [1 + m] := by
      have h := List.range'_append 1 m 1 1
      simp only [one_mul, List.range'] at h
      rw [show m + 1 = 1 + m from by omega, ← h]
    rw [hsplit, List.foldl_append, ih (by omega), List.foldl_cons, List.foldl_nil]
    simp only [rsiStep]
    rw [if_neg (by omega : ¬ 1 + m = 0)]
    rw [rsi_change ds (1 + m) (by omega)]
    rw [if_pos (by omega : 1 + m ≤ p), if_pos (by omega : 1 + m < p)]
    rw [gain_if, loss_if]
    rw [Finset.sum_range_succ, Finset.sum_range_succ]
    rw [show 1 + m = m + 1 from by omega]

/-- Processing the smoothing-phase indices `p+1+k0 .. p+k0+n` extends the
emitted entries to `k0+n` and leaves the seed gain/loss sums untouched. -/
theorem rsi_smooth (ds : List (ℚ × ℚ)) (p : ℕ) (hp : 0 < p) :
    ∀ (n k0 : ℕ) (gl : Option ℚ × Option ℚ),
    p + 1 + k0 + n ≤ ds.length →
    (List.range' (p + 1 + k0) n).foldl (rsiStep (numericData ds) (p : ℚ) p)
        ((List.range (k0 + 1)).map (rsiSpecEntry ds p), gl)
      = ((List.range (k0 + 1 + n)).map (rsiSpecEntry ds p), gl) := by
  have hpne : ((p : ℚ)) ≠ 0 := by positivity
  intro n
  induction n with
  | zero => intro k0 gl _; rfl
  | succ n ih =>
    intro k0 gl hle
    rw [show List.range' (p + 1 + k0) (n + 1) = (p + 1 + k0) :: List.range' (p + 1 + k0 + 1) n
      from rfl]
    rw [List.foldl_cons]
    have hstep : rsiStep (numericData ds) (p : ℚ) p
        ((List.range (k0 + 1)).map (rsiSpecEntry ds p), gl) (p + 1 + k0)
        = ((List.range (k0 + 1 + 1)).map (rsiSpecEntry ds p), gl) := by
      simp only [rsiStep]
      rw [if_neg (by omega : ¬ p + 1 + k0 = 0)]
      rw [rsi_change ds (p + 1 + k0) (by omega)]
      rw [if_neg (by omega : ¬ p + 1 + k0 ≤ p)]
      rw [(rsi_entries_getLast ds p k0).1, (rsi_entries_getLast ds p k0).2]
      rw [current_gain_if, current_loss_if]
      simp only [omul, oadd, odiv]
      rw [if_neg hpne, if_neg hpne]
      have hidx : p + 1 + k0 = p + k0 + 1 := by omega
      rw [hidx]
      have hW : wilderAvgs ds p (k0 + 1)
          = (((wilderAvgs ds p k0).1 * ((p : ℚ) - 1) + gainOf (delta ds (p + k0 + 1))) / p,
            ((wilderAvgs ds p k0).2 * ((p : ℚ) - 1) + lossOf (delta ds (p + k0 + 1))) / p) :=
        rfl
      have hnn := wilderAvgs_nonneg ds p hp (k0 + 1)
      rw [hW] at hnn
      rw [rsiEntry_eq _ _ _ _ hnn.1 hnn.2]
      rw [List.range_succ (n := k0 + 1), List.map_append]
      congr 1
      simp only [List.map_cons, List.map_nil]
      congr 1
      rw [rsiSpecEntry, hW]
      have hx : p + (k0 + 1) = p + k0 + 1 := by omega
      rw [hx, numericData_getElem ds (p + k0 + 1) (by omega)]
      rfl
    rw [hstep]
    have hrec := ih (k0 + 1) gl (by omega)
    rw [show p + 1 + k0 + 1 = p + 1 + (k0 + 1) from by omega]
    rw [hrec]
    rw [show k0 + 1 + 1 + n = k0 + 1 + (n + 1) from by omega]

/-- A pass whose every index is below the period emits nothing. -/
theorem rsi_small (ds : List (ℚ × ℚ)) (p : ℕ) :
    ∀ (L : List ℕ) (gl : Option ℚ × Option ℚ),
    (∀ i ∈ L, i < p) →
    (L.foldl (rsiStep (numericData ds) (p : ℚ) p) ([], gl)).1 = [] := by
  intro L
  induction L with
  | nil => intro gl _; rfl
  | cons a L ih =>
    intro gl h
    rw [List.foldl_cons]
    have ha : a < p := h a (List.mem_cons_self a L)
    by_cases h0 : a = 0
    · rw [show rsiStep (numericData ds) (p : ℚ) p ([], gl) a = ([], gl) from by
        rw [rsiStep, if_pos h0]]
      exact ih gl (fun i hi => h i (List.mem_cons_of_mem a hi))
    · obtain ⟨gl2, hgl2⟩ : ∃ gl2,
          rsiStep (numericData ds) (p : ℚ) p ([], gl) a = ([], gl2) := by
        simp only [rsiStep]
        rw [if_neg h0, if_pos (by omega : a ≤ p), if_pos ha]
        exact ⟨_, rfl⟩
      rw [hgl2]
      exact ih gl2 (fun i hi => h i (List.mem_cons_of_mem a hi))

/-- C6 counterexample.  With period 2 on prices `10, 9, 10, 11` the trailing
window at the last index consists of the two deltas `+1, +1` — zero losses —
yet the emitted RSI there is `75`, not `100`: Wilder smoothing keeps the
older loss in `avgLoss = 1/4 ≠ 0`. -/
theorem rsi_not_100_on_gain_only_window :
    calculateRSI [⟨some 0, some 10⟩, ⟨some 1, some 9⟩, ⟨some 2, some 10⟩, ⟨some 3, some 11⟩]
        (periodParams 2)
      = .ok [.rsiPoint (some 2) (some 50) (some (1/2)) (some (1/2)) (some 10),
          .rsiPoint (some 3) (some 75) (some (3/4)) (some (1/4)) (some 11)] ∧
    (0 ≤ (10 : ℚ) - 9 ∧ 0 ≤ (11 : ℚ) - 10) ∧
    (75 : ℚ) ≠ 100 := by
  refine ⟨?_, by norm_num, by norm_num⟩
  rw [calculateRSI]
  norm_num [periodParams, badPeriod]
  rw [show List.range 4 = [0, 1, 2, 3] from rfl]
  simp only [List.foldl_cons, List.foldl_nil]
  norm_num [rsiStep, List.getElem?_cons_zero, List.getElem?_cons_succ, ogeZero, oltZero,
    oadd, osub, omul, odiv, oneg, lastAvgGain, lastAvgLoss, rsiEntry]

/-- C6 (amended).  On numeric data with a valid period, `calculateRSI` emits
exactly the entries of the Wilder reference recursion: entry `k` (data index
`p+k`) carries `avgGain`/`avgLoss` given by the seed window averages at
`k = 0` and by `avg = (prevAvg*(p-1) + current)/p` afterwards, and its RSI is
`100` when `avgLoss = 0` and `100 - 100/(1 + avgGain/avgLoss)` otherwise;
the averages stay nonnegative, and `rsiOf g l = 100` exactly when `l = 0` —
so RSI is exactly 100 precisely where the *smoothed* average loss vanishes,
not wherever the trailing window alone is loss-free. -/
theorem calculateRSI_spec :
    (∀ (ds : List (ℚ × ℚ)) (p : ℕ), 0 < p →
      calculateRSI (numericData ds) (periodParams p)
        = .ok ((List.range (ds.length - p)).map (rsiSpecEntry ds p)) ∧
      ∀ k, 0 ≤ (wilderAvgs ds p k).1 ∧ 0 ≤ (wilderAvgs ds p k).2) ∧
    (∀ g l : ℚ, 0 ≤ g → 0 ≤ l → (rsiOf g l = 100 ↔ l = 0)) := by
  refine ⟨?_, rsiOf_eq_100_iff⟩
  intro ds p hp
  refine ⟨?_, wilderAvgs_nonneg ds p hp⟩
  have hbad : ¬ badPeriod ((p : ℕ) : ℚ) := by
    simp only [badPeriod, Rat.den_natCast, not_or]
    refine ⟨by simp only [not_le]; exact_mod_cast hp, by simp⟩
  rw [calculateRSI]
  simp only [periodParams, Option.getD_some, if_neg hbad, Rat.num_natCast, Int.toNat_natCast]
  rw [numericData_length]
  by_cases hlen : ds.length ≤ p
  · have h0 : ds.length - p = 0 := by omega
    rw [h0]
    rw [rsi_small ds p (List.range ds.length) (some 0, some 0)
      (fun i hi => by have := List.mem_range.mp hi; omega)]
    rfl
  · have hplt : p < ds.length := by omega
    have hpne : ((p : ℚ)) ≠ 0 := by positivity
    rw [List.range_eq_range']
    have hsplit1 : List.range' 0 ds.length
        = List.range' 0 (p + 1) ++ List.range' (p + 1) (ds.length - (p + 1)) := by
      have h := List.range'_append 0 (p + 1) (ds.length - (p + 1)) 1
      simp only [one_mul, zero_add] at h
      rw [show ds.length - (p + 1) + (p + 1) = ds.length from by omega] at h
      exact h.symm
    have hsplit2 : List.range' 0 (p + 1) = 0 :: (List.range' 1 (p - 1) ++ [p]) := by
      have h := List.range'_append 1 (p - 1) 1 1
      simp only [one_mul] at h
      rw [show (1 + (p - 1)) = p from by omega] at h
      rw [show List.range' 0 (p + 1) = 0 :: List.range' 1 p from rfl, ← h]
      rfl
    have hstep0 : rsiStep (numericData ds) (p : ℚ) p ([], some 0, some 0) 0
        = ([], some 0, some 0) := by
      rw [rsiStep, if_pos rfl]
    have hpp : p - 1 + 1 = p := by omega
    have hg : (∑ t ∈ Finset.range (p - 1 + 1), gainOf (delta ds (t + 1)))
        = (∑ t ∈ Finset.range (p - 1), gainOf (delta ds (t + 1)))
          + gainOf (delta ds (p - 1 + 1)) := Finset.sum_range_succ _ _
    have hl : (∑ t ∈ Finset.range (p - 1 + 1), lossOf (delta ds (t + 1)))
        = (∑ t ∈ Finset.range (p - 1), lossOf (delta ds (t + 1)))
          + lossOf (delta ds (p - 1 + 1)) := Finset.sum_range_succ _ _
    rw [hpp] at hg hl
    have hW0 : wilderAvgs ds p 0
        = ((∑ t ∈ Finset.range p, gainOf (delta ds (t + 1))) / p,
          (∑ t ∈ Finset.range p, lossOf (delta ds (t + 1))) / p) := rfl
    have hseednn := wilderAvgs_nonneg ds p hp 0
    rw [hW0] at hseednn
    have hseed : rsiStep (numericData ds) (p : ℚ) p
        ([], some (∑ t ∈ Finset.range (p - 1), gainOf (delta ds (t + 1))),
          some (∑ t ∈ Finset.range (p - 1), lossOf (delta ds (t + 1)))) p
        = ((List.range 1).map (rsiSpecEntry ds p),
          some (∑ t ∈ Finset.range p, gainOf (delta ds (t + 1))),
          some (∑ t ∈ Finset.range p, lossOf (delta ds (t + 1)))) := by
      simp only [rsiStep]
      rw [if_neg (by omega : ¬ p = 0)]
      rw [rsi_change ds p (by omega)]
      rw [if_pos (le_refl p), if_neg (lt_irrefl p)]
      rw [gain_if, loss_if, ← hg, ← hl]
      simp only [odiv]
      rw [if_neg hpne, if_neg hpne]
      rw [rsiEntry_eq _ _ _ _ hseednn.1 hseednn.2]
      rw [show (List.range 1).map (rsiSpecEntry ds p) = [rsiSpecEntry ds p 0] from rfl]
      simp only [List.nil_append]
      rw [numericData_getElem ds p (by omega)]
      rfl
    rw [hsplit1, List.foldl_append, hsplit2, List.foldl_cons, List.foldl_append, hstep0,
      rsi_accum ds p hplt (p - 1) (by omega), List.foldl_cons, List.foldl_nil, hseed]
    have hB := rsi_smooth ds p hp (ds.length - (p + 1)) 0
      (some (∑ t ∈ Finset.range p, gainOf (delta ds (t + 1))),
        some (∑ t ∈ Finset.range p, lossOf (delta ds (t + 1)))) (by omega)
    simp only [zero_add, add_zero] at hB
    rw [hB]
    rw [show 1 + (ds.length - (p + 1)) = ds.length - p from by omega]

/-- Witness for C6 (amended) at the 4-point series with period 2. -/
theorem calculateRSI_spec_witness :
    calculateRSI (numericData [((0 : ℚ), (10 : ℚ)), (1, 9), (2, 10), (3, 11)]) (periodParams 2)
      = .ok ((List.range ([((0 : ℚ), (10 : ℚ)), (1, 9), (2, 10), (3, 11)].length - 2)).map
          (rsiSpecEntry [((0 : ℚ), (10 : ℚ)), (1, 9), (2, 10), (3, 11)] 2)) :=
  (calculateRSI_spec.1 [((0 : ℚ), (10 : ℚ)), (1, 9), (2, 10), (3, 11)] 2 (by norm_num)).1

end VisionCharts
